import Mathlib

/-!
Verification development for the document merger (src/scripts/merger.py).

The core under scrutiny is the outline-reconciliation and keyword-index
engine of the DocumentMerger class: get_pdf_bookmarks (with its inner
recurse_outlines walker and the first-page-text fallback), extract_keywords
(keyword indexing with the running global page counter) and
create_master_latex (assembly of the addtotoc TOC directives).

Shallow embedding conventions:
  * Python strings are List Char; str.strip, str.split, str.lower,
    str.replace and the "in" substring test are modelled char by char.
  * The three anchored regular expressions of merger.py are modelled as
    deterministic matching functions; each one is justified in its doc
    comment against Python re semantics (leftmost match, greedy
    quantifiers with backtracking, re.IGNORECASE where used).
  * A PyPDF2 outline is a forest: every item is either a destination
    (title and a resolvable 0-indexed destination page) or a nested list.
    A destination whose page resolution is given as none models
    get_destination_page_number raising an exception.
  * A page whose text is given as none models page.extract_text raising.
  * Exceptions are modelled by an explicit error flag threaded through the
    traversal state (the Python exception propagates to the enclosing
    try/except, so everything after the raise point is skipped, while
    previously mutated state survives).
-/

namespace Merger

/-! ## Python string primitives -/

/-- Python whitespace for str.strip / regex \s (ASCII range). -/
def isPySpace (c : Char) : Bool :=
  c == ' ' || c == '\t' || c == '\n' || c == '\r' || c == '\x0b' || c == '\x0c'

/-- Python str.strip (no arguments): drop whitespace from both ends. -/
def pyStrip (cs : List Char) : List Char :=
  ((cs.dropWhile isPySpace).reverse.dropWhile isPySpace).reverse

/-- Python str.rstrip with one dot argument: drop trailing dots. -/
def rstripDots (cs : List Char) : List Char :=
  (cs.reverse.dropWhile (fun c => c == '.')).reverse

/-- First component of Python str.split with a single-space separator:
the characters before the first space character. -/
def spaceWord (cs : List Char) : List Char :=
  cs.takeWhile (fun c => c != ' ')

/-- First component of Python str.split with no argument: drop leading
whitespace, then take until the next whitespace. -/
def wsWord (cs : List Char) : List Char :=
  (cs.dropWhile isPySpace).takeWhile (fun c => !(isPySpace c))

/-- Python str.lower, character by character. -/
def lowerStr (cs : List Char) : List Char := cs.map Char.toLower

/-- Python substring containment: needle in hay. The empty needle is
contained in everything, as in Python. -/
def containsSub (hay needle : List Char) : Bool :=
  match hay with
  | [] => needle.isEmpty
  | c :: t => needle.isPrefixOf (c :: t) || containsSub t needle

/-- Python str.splitlines restricted to the newline character: maximal
newline-free segments, with no trailing empty segment for a final
newline. -/
def splitLinesAux (cur : List Char) : List Char → List (List Char)
  | [] => if cur.isEmpty then [] else [cur.reverse]
  | '\n' :: rest => cur.reverse :: splitLinesAux [] rest
  | c :: rest => splitLinesAux (c :: cur) rest

def splitLines (cs : List Char) : List (List Char) := splitLinesAux [] cs

/-- Decimal rendering of a natural number, structurally (by fuel) so that
the kernel can evaluate it; natChars below always supplies enough fuel. -/
def natCharsF : Nat → Nat → List Char
  | 0, _ => []
  | f + 1, n => if n < 10 then [Nat.digitChar n] else natCharsF f (n / 10) ++ [Nat.digitChar (n % 10)]

/-- Decimal rendering of a natural number, as Python str(n). -/
def natChars (n : Nat) : List Char := natCharsF (n + 1) n

/-- Decimal parsing, a left inverse of natChars used to prove natChars
injective. -/
def parseNat (cs : List Char) : Nat :=
  cs.foldl (fun a c => a * 10 + (c.toNat - 48)) 0

/-! ## The three anchored regular expressions of merger.py

merger.py uses three patterns, always through re.match or an anchored
re.sub, so only a prefix match at position 0 is ever relevant:

  chapter pattern      (Chapter|CH)[-:\s]+\d+[:\.\s-]*   with re.IGNORECASE
  bare integer pattern \d+\.?\s+            and the sub variant \d+\.?\s*
  section pattern      \d+\.\d+(\.\d+)?\.?(\s|$)
                       and the sub variant  \d+\.\d+(\.\d+)?\.?\s*

All quantifiers are greedy. In each pattern the relevant character classes
are pairwise disjoint at the points where greediness could interact
(separator classes contain no digits and vice versa), so maximal-munch
scanning is exact; the only genuine backtracking points, the alternation
Chapter|CH, the optional group (\.\d+)? and the optional dots \.?, are
modelled by explicit case analysis in the same order Python tries them. -/

/-- Case-insensitive literal prefix: the literal is given lowercase and
compared against the lowercased input, as re.IGNORECASE does on ASCII.
Returns the rest of the input after the literal. -/
def ciLit : List Char → List Char → Option (List Char)
  | [], cs => some cs
  | _ :: _, [] => none
  | l :: ls, c :: cs => if c.toLower == l then ciLit ls cs else none

/-- Character class [-:\s] of the chapter pattern. -/
def isSepMid (c : Char) : Bool := c == '-' || c == ':' || isPySpace c

/-- Character class [:\.\s-] of the chapter pattern. -/
def isSepTail (c : Char) : Bool := c == ':' || c == '.' || isPySpace c || c == '-'

/-- After the Chapter or CH literal: [-:\s]+ then \d+ then [:\.\s-]*,
all greedy. Returns the suffix after the whole match. -/
def chapterTail (r1 : List Char) : Option (List Char) :=
  if (r1.takeWhile isSepMid).isEmpty then none
  else
    let r2 := r1.dropWhile isSepMid
    if (r2.takeWhile Char.isDigit).isEmpty then none
    else some ((r2.dropWhile Char.isDigit).dropWhile isSepTail)

/-- Anchored match of the chapter pattern; some s means the pattern
matched and s is the stripped remainder, which is exactly what the
anchored re.sub with an empty replacement leaves. Python tries the
alternative Chapter first and CH second. -/
def chapterStrip (cs : List Char) : Option (List Char) :=
  match (ciLit ("chapter".toList) cs).bind chapterTail with
  | some out => some out
  | none => (ciLit ("ch".toList) cs).bind chapterTail

/-- found_chapter_title value for a rule-1 match: the re.sub result,
stripped. When the pattern does not match, re.sub returns the input
unchanged (unreachable in the code path, kept for totality). -/
def chapterFound (title : List Char) : List Char :=
  match chapterStrip title with
  | some r => pyStrip r
  | none => pyStrip title

/-- Head character is Python whitespace. -/
def headIsSpace : List Char → Bool
  | [] => false
  | c :: _ => isPySpace c

/-- Anchored match of \d+\.?\s+ . The optional dot is greedy: if a dot is
present Python first requires whitespace after it, and on failure retries
without the dot, which then faces the dot itself and fails; hence the
single case split below. -/
def bareIntMatch (cs : List Char) : Bool :=
  if (cs.takeWhile Char.isDigit).isEmpty then false
  else
    match cs.dropWhile Char.isDigit with
    | '.' :: t => headIsSpace t
    | r => headIsSpace r

/-- Anchored re.sub of \d+\.?\s* with empty replacement: strip the
digits, at most one following dot, and any following whitespace. If the
pattern does not match (no leading digit) the input is unchanged. -/
def bareIntStrip (cs : List Char) : List Char :=
  if (cs.takeWhile Char.isDigit).isEmpty then cs
  else
    let r := cs.dropWhile Char.isDigit
    let r2 := match r with
      | '.' :: t => t
      | _ => r
    r2.dropWhile isPySpace

/-- first_part of rule 2: title.split()[0].rstrip(dot). -/
def firstPart (cs : List Char) : List Char := rstripDots (wsWord cs)

/-- The tail \.?(\s|$) of the section pattern: an optional greedy dot
followed by whitespace or end of string. If the dot is taken and no
whitespace or end follows, the retry without the dot faces the dot itself
and fails. -/
def endOk : List Char → Bool
  | [] => true
  | '.' :: t =>
    match t with
    | [] => true
    | c :: _ => isPySpace c
  | c :: _ => isPySpace c

/-- Anchored match of the section pattern \d+\.\d+(\.\d+)?\.?(\s|$).
The optional group (\.\d+)? is tried greedily first; on failure of the
rest, Python retries with the group empty. -/
def sectionMatch (cs : List Char) : Bool :=
  if (cs.takeWhile Char.isDigit).isEmpty then false
  else
    match cs.dropWhile Char.isDigit with
    | '.' :: r2 =>
      if (r2.takeWhile Char.isDigit).isEmpty then false
      else
        match r2.dropWhile Char.isDigit with
        | '.' :: s =>
          (if (s.takeWhile Char.isDigit).isEmpty then false
           else endOk (s.dropWhile Char.isDigit))
          || endOk ('.' :: s)
        | r3 => endOk r3
    | _ => false

/-- Anchored re.sub of \d+\.\d+(\.\d+)?\.?\s* with empty replacement.
Here the tail \.?\s* always succeeds, so the greedy group commits
whenever it can match. Unchanged input when the pattern does not match. -/
def sectionStrip (cs : List Char) : List Char :=
  if (cs.takeWhile Char.isDigit).isEmpty then cs
  else
    match cs.dropWhile Char.isDigit with
    | '.' :: r2 =>
      if (r2.takeWhile Char.isDigit).isEmpty then cs
      else
        let r3 := r2.dropWhile Char.isDigit
        let r4 := match r3 with
          | '.' :: s => if (s.takeWhile Char.isDigit).isEmpty then r3 else s.dropWhile Char.isDigit
          | _ => r3
        let r5 := match r4 with
          | '.' :: t => t
          | _ => r4
        r5.dropWhile isPySpace
    | _ => cs

/-! ## Outline model and the recurse_outlines walker -/

/-- One bookmark line appended by recurse_outlines:
page_num, level, depth, clean_title, labelN. -/
structure Bookmark where
  pageNum : Nat
  level : String
  depth : Nat
  cleanTitle : List Char
  label : List Char
deriving DecidableEq

/-- The label string labelN with N the current length of the bookmark
list, as in the f-string label{len(bookmarks)}. -/
def labelChars (n : Nat) : List Char := ("label".toList) ++ natChars n

/-- Traversal state of recurse_outlines: the bookmarks list, the
nonlocal found_chapter_title, and whether an exception has been raised
(in which case the Python traversal has been aborted and control is at
the enclosing except handler). -/
structure ScanSt where
  bookmarks : List Bookmark
  foundChapterTitle : Option (List Char)
  errored : Bool
deriving DecidableEq

def initSt : ScanSt := ScanSt.mk [] none false

/-- Title preprocessing at the top of the loop body:
item.title.replace(comma, space).strip(). -/
def normTitle (raw : List Char) : List Char :=
  pyStrip (raw.map (fun c => if c == ',' then ' ' else c))

/-- The body of recurse_outlines for one destination item, after the
title has been normalized. The chapter pattern is tried first; then the
bare-integer fallback (whose inner dot test guards the continue); a title
surviving both is tested against the section pattern; page is the
0-indexed result of get_destination_page_number, none if it raises. -/
def processEntry (st : ScanSt) (rawTitle : List Char) (page : Option Nat) : ScanSt :=
  let title := normTitle rawTitle
  if (chapterStrip title).isSome then
    ScanSt.mk st.bookmarks (some (chapterFound title)) st.errored
  else if bareIntMatch title && !((firstPart title).contains '.') then
    ScanSt.mk st.bookmarks (some (pyStrip (bareIntStrip title))) st.errored
  else if sectionMatch title then
    match page with
    | none => ScanSt.mk st.bookmarks st.foundChapterTitle true
    | some p =>
      let np := rstripDots (spaceWord title)
      let lev := if np.count '.' = 1 then "section" else "subsection"
      let dep := if np.count '.' = 1 then 1 else 2
      ScanSt.mk
        (st.bookmarks ++
          [Bookmark.mk (p + 1) lev dep (pyStrip (sectionStrip title)) (labelChars st.bookmarks.length)])
        st.foundChapterTitle st.errored
  else st

/-- One step of the walk over a destination entry: a pending exception
skips everything (the Python loop body is never reached once the
exception propagates). -/
def stepEntry (st : ScanSt) (e : List Char × Option Nat) : ScanSt :=
  if st.errored then st else processEntry st e.1 e.2

mutual
/-- A PyPDF2 outline item: a destination with a title and a resolvable
destination page (none models get_destination_page_number raising), or a
nested list of children. -/
inductive OutlineItem : Type where
  | entry : List Char → Option Nat → OutlineItem
  | group : OutlineForest → OutlineItem

/-- A list of outline items, as the isinstance(item, list) recursion of
recurse_outlines sees it. -/
inductive OutlineForest : Type where
  | nil : OutlineForest
  | cons : OutlineItem → OutlineForest → OutlineForest
end

mutual
/-- recurse_outlines over a list of items. -/
def walkForest (st : ScanSt) : OutlineForest → ScanSt
  | .nil => st
  | .cons it rest => walkForest (walkItem st it) rest

/-- recurse_outlines on one item: recurse into nested lists, otherwise
run the loop body on the destination. -/
def walkItem (st : ScanSt) : OutlineItem → ScanSt
  | .entry t p => stepEntry st (t, p)
  | .group cs => walkForest st cs
end

mutual
/-- Pre-order sequence of the destination entries of a forest. -/
def flattenForest : OutlineForest → List (List Char × Option Nat)
  | .nil => []
  | .cons it rest => flattenItem it ++ flattenForest rest

/-- Pre-order sequence of the destination entries of one item. -/
def flattenItem : OutlineItem → List (List Char × Option Nat)
  | .entry t p => [(t, p)]
  | .group cs => flattenForest cs
end

/-- A page-bearing artifact as the merger reads it through PyPDF2:
whether PdfReader itself succeeds, the outline forest, and the page
texts (none for a page whose extract_text raises). -/
structure PdfDoc where
  readerOk : Bool
  outline : OutlineForest
  pages : List (Option (List Char))

/-- Python truthiness of found_chapter_title: None and the empty string
are falsy. -/
def pyTruthyOpt : Option (List Char) → Bool
  | none => false
  | some s => !s.isEmpty

/-- The loop of the first-page-text fallback over the (at most five)
scanned lines: each line is stripped; on the first chapter-pattern match
the stripped remainder is taken, or the stripped line itself if that
remainder is empty, and scanning stops. -/
def scanLinesGo : List (List Char) → Option (List Char)
  | [] => none
  | l :: rest =>
    let line := pyStrip l
    match chapterStrip line with
    | some r =>
      let f := pyStrip r
      some (if f.isEmpty then line else f)
    | none => scanLinesGo rest

/-- The first-page-text fallback: scan the first five lines. -/
def fallbackScan (lines : List (List Char)) : Option (List Char) :=
  scanLinesGo (lines.take 5)

/-- Truthiness of reader.outline (an empty outline list is falsy). -/
def isNilForest : OutlineForest → Bool
  | .nil => true
  | .cons _ _ => false

/-- get_pdf_bookmarks: walk the outline if any, then, when no truthy
chapter title was captured and the document has pages, run the
first-page-text fallback (its inner try leaves everything unchanged when
extraction fails). Any exception during reading is caught by the outer
except, which returns whatever had been accumulated so far; a failure of
PdfReader itself yields the untouched initial accumulators. -/
def getPdfBookmarks (doc : PdfDoc) : List Bookmark × Option (List Char) :=
  if doc.readerOk then
    let st := if isNilForest doc.outline then initSt else walkForest initSt doc.outline
    if st.errored then (st.bookmarks, st.foundChapterTitle)
    else
      let ft :=
        if !(pyTruthyOpt st.foundChapterTitle) && !doc.pages.isEmpty then
          match doc.pages with
          | [] => st.foundChapterTitle
          | none :: _ => st.foundChapterTitle
          | some txt :: _ =>
            match fallbackScan (splitLines txt) with
            | some f => some f
            | none => st.foundChapterTitle
        else st.foundChapterTitle
      (st.bookmarks, ft)
  else ([], none)

/-! ## create_master_latex: the TOC directive assembler -/

/-- One addtotoc directive: page, level, depth, title, label, as in the
comma-separated tuples spliced into the master LaTeX file. -/
structure TocDirective where
  page : Nat
  level : String
  depth : Nat
  title : List Char
  label : List Char
deriving DecidableEq

/-- One element of self.chapters at assembly time: the formatted display
name and, when conversion produced one, the page-bearing artifact (the
absent pdf key models a failed conversion). -/
structure ChapterRec where
  name : List Char
  pdf : Option PdfDoc

/-- chapter_title = found_title if found_title else chapter[name]
(Python truthiness: an empty found title falls back to the name). -/
def chooseTitle (ft : Option (List Char)) (nm : List Char) : List Char :=
  match ft with
  | some t => if t.isEmpty then nm else t
  | none => nm

/-- A section/subsection bookmark spliced unchanged into the addtotoc
list. -/
def bookmarkDirective (b : Bookmark) : TocDirective :=
  TocDirective.mk b.pageNum b.level b.depth b.cleanTitle b.label

/-- The chapter label chapI from the f-string chap{i}. -/
def chapLabel (i : Nat) : List Char := ("chap".toList) ++ natChars i

/-- The directives contributed by one chapter with 1-based enumeration
index i: nothing when the pdf key is absent; otherwise the single chapter
entry 1,chapter,0,title,chapI followed by the bookmarks returned by
get_pdf_bookmarks (joining chapter_entry with addtotoc_str, which is a
no-op when the bookmark list is empty). -/
def docDirectives (i : Nat) (ch : ChapterRec) : List TocDirective :=
  match ch.pdf with
  | none => []
  | some doc =>
    let r := getPdfBookmarks doc
    TocDirective.mk 1 "chapter" 0 (chooseTitle r.2 ch.name) (chapLabel i) :: r.1.map bookmarkDirective

/-- enumerate(self.chapters, 1): all chapters consume an index, also the
skipped ones. -/
def enumFrom (i : Nat) : List ChapterRec → List (Nat × ChapterRec)
  | [] => []
  | c :: cs => (i, c) :: enumFrom (i + 1) cs

/-- The ordered sequence of all addtotoc directives in the master LaTeX
file: the per-chapter blocks in merge order, then, if an index pdf was
generated, the fixed entry 1,chapter,0,Index,idx. -/
def createMasterLatex (chs : List ChapterRec) (hasIndexPdf : Bool) : List TocDirective :=
  ((enumFrom 1 chs).map (fun p => docDirectives p.1 p.2)).flatten ++
    (if hasIndexPdf then [TocDirective.mk 1 "chapter" 0 ("Index".toList) ("idx".toList)] else [])

/-! ## extract_keywords: keyword indexing and the global page counter -/

/-- State of the indexing loop: the keyword map (keyword to the set of
collected page numbers, kept as a duplicate-free list in insertion order)
and the running counter global_page. -/
structure IndexSt where
  kmap : List (List Char × List Nat)
  globalPage : Nat
deriving DecidableEq

/-- current_page_num = global_page + i for the 0-indexed page i. -/
def currentPageNum (globalPage i : Nat) : Nat := globalPage + i

/-- Python set.add on the page set of one keyword. -/
def addPage (p : Nat) (l : List Nat) : List Nat :=
  if p ∈ l then l else l ++ [p]

/-- The inner keyword loop over one page: every keyword whose lowercase
form occurs in the lowercased page text collects the page number. -/
def updateMap (m : List (List Char × List Nat)) (textLower : List Char) (p : Nat) :
    List (List Char × List Nat) :=
  m.map (fun e => if containsSub textLower (lowerStr e.1) then (e.1, addPage p e.2) else e)

/-- The page loop of one chapter: page i contributes matches at
current_page_num; a page whose extract_text raises (none) aborts the
whole per-chapter try block, so the remaining pages are never scanned;
the Bool records whether the loop completed without an exception. -/
def scanPagesAux (m : List (List Char × List Nat)) (globalPage i : Nat) :
    List (Option (List Char)) → List (List Char × List Nat) × Bool
  | [] => (m, true)
  | none :: _ => (m, false)
  | some t :: rest =>
    scanPagesAux (updateMap m (lowerStr t) (currentPageNum globalPage i)) globalPage (i + 1) rest

/-- One iteration of the chapter loop of extract_keywords: chapters
without a pdf key are skipped; a failing PdfReader is caught with nothing
scanned; otherwise the pages are scanned and global_page advances by
len(reader.pages) only when the per-chapter try block completed. -/
def indexChapter (st : IndexSt) (ch : ChapterRec) : IndexSt :=
  match ch.pdf with
  | none => st
  | some doc =>
    if doc.readerOk then
      match scanPagesAux st.kmap st.globalPage 0 doc.pages with
      | (m, true) => IndexSt.mk m (st.globalPage + doc.pages.length)
      | (m, false) => IndexSt.mk m st.globalPage
    else st

/-- Distinct keywords in first-occurrence order, as the dict
comprehension keyword_map = (k : set() for k in keywords) produces. -/
def dedupAux (seen : List (List Char)) : List (List Char) → List (List Char)
  | [] => []
  | k :: rest => if k ∈ seen then dedupAux seen rest else k :: dedupAux (k :: seen) rest

def dedupKeys (ks : List (List Char)) : List (List Char) := dedupAux [] ks

/-- The initial keyword map: every distinct keyword with an empty page
set. -/
def initMap (ks : List (List Char)) : List (List Char × List Nat) :=
  (dedupKeys ks).map (fun k => (k, ([] : List Nat)))

/-- The chapter loop of extract_keywords, from the parsed keyword list,
with global_page initialized to 1. -/
def extractKeywordsRun (ks : List (List Char)) (chs : List ChapterRec) : IndexSt :=
  chs.foldl indexChapter (IndexSt.mk (initMap ks) 1)

/-- Insertion into a sorted list, ascending. -/
def insertSorted (x : Nat) : List Nat → List Nat
  | [] => [x]
  | y :: ys => if x ≤ y then x :: y :: ys else y :: insertSorted x ys

/-- Python sorted on a list of naturals. -/
def insSort : List Nat → List Nat
  | [] => []
  | x :: xs => insertSorted x (insSort xs)

/-- found_keywords: keep only keywords with a nonempty page set, each
value sorted ascending (the set is already duplicate-free). -/
def extractKeywords (ks : List (List Char)) (chs : List ChapterRec) :
    List (List Char × List Nat) :=
  (extractKeywordsRun ks chs).kmap.filterMap
    (fun e => if e.2.isEmpty then none else some (e.1, insSort e.2))

/-! ## Derived descriptions used to state the claims

These definitions restate, in closed form, what the loops above compute;
the theorems below connect them to the operational definitions. -/

/-- The chapter title a single normalized outline title would capture
(rule 1, else rule 2 with its inner dot test), none if neither fires. -/
def entryTitleEffect (title : List Char) : Option (List Char) :=
  if (chapterStrip title).isSome then some (chapterFound title)
  else if bareIntMatch title && !((firstPart title).contains '.') then
    some (pyStrip (bareIntStrip title))
  else none

/-- Overwriting accumulator: a later some replaces the current value. -/
def overwriteOpt (a b : Option (List Char)) : Option (List Char) :=
  match b with
  | some v => some v
  | none => a

/-- The chapter title left by a sequence of entries under the overwrite
semantics of the nonlocal found_chapter_title: the last match wins. -/
def lastTitleFrom (a : Option (List Char)) (entries : List (List Char × Option Nat)) :
    Option (List Char) :=
  entries.foldl (fun acc e => overwriteOpt acc (entryTitleEffect (normTitle e.1))) a

/-- The 1-indexed-from-base global pages of one document's pages whose
lowercased text contains the lowercased keyword. -/
def matchPagesFrom (k : List Char) (base : Nat) : List (List Char) → List Nat
  | [] => []
  | t :: ts =>
    (if containsSub (lowerStr t) (lowerStr k) then [base] else []) ++
      matchPagesFrom k (base + 1) ts

/-- The matching global pages across a document sequence, each document
shifting the base by its page count. -/
def docsMatchPagesFrom (k : List Char) (base : Nat) : List (List (List Char)) → List Nat
  | [] => []
  | d :: ds => matchPagesFrom k base d ++ docsMatchPagesFrom k (base + d.length) ds

/-- All global pages (numbered from 1) on which a keyword occurs, across
the merged document sequence. -/
def matchPages (k : List Char) (docs : List (List (List Char))) : List Nat :=
  docsMatchPagesFrom k 1 docs

/-- A fully readable chapter: conversion succeeded, PdfReader succeeds,
and every page's text extracts. The outline is irrelevant to indexing. -/
def cleanChapter (texts : List (List Char)) : ChapterRec :=
  ChapterRec.mk [] (some (PdfDoc.mk true OutlineForest.nil (texts.map some)))

def cleanChapters (docs : List (List (List Char))) : List ChapterRec :=
  docs.map cleanChapter

/-- Total page count of a document sequence. -/
def totalPages (docs : List (List (List Char))) : Nat :=
  (docs.map List.length).sum

/-- The value of global_page after the first n documents of a clean run
have been processed. -/
def baseAfter (ks : List (List Char)) (docs : List (List (List Char))) (n : Nat) : Nat :=
  (extractKeywordsRun ks (cleanChapters (docs.take n))).globalPage

/-! ## Lemmas: decimal rendering is injective -/

theorem parseNat_append_digit (xs : List Char) (c : Char) :
    parseNat (xs ++ [c]) = parseNat xs * 10 + (c.toNat - 48) := by
  simp [parseNat, List.foldl_append]

theorem digitChar_toNat_sub (n : Nat) (h : n < 10) : (Nat.digitChar n).toNat - 48 = n := by
  revert h
  revert n
  decide

theorem parseNat_natCharsF : ∀ f n, n < f → parseNat (natCharsF f n) = n := by
  intro f
  induction f with
  | zero => intro n h; omega
  | succ f ih =>
    intro n h
    by_cases h10 : n < 10
    · simp [natCharsF, h10, parseNat, digitChar_toNat_sub n h10]
    · have hdiv : n / 10 < n := Nat.div_lt_self (by omega) (by omega)
      have hf : n / 10 < f := by omega
      simp only [natCharsF, if_neg h10, parseNat_append_digit, ih (n / 10) hf,
        digitChar_toNat_sub (n % 10) (Nat.mod_lt n (by omega))]
      omega

theorem parseNat_natChars (n : Nat) : parseNat (natChars n) = n :=
  parseNat_natCharsF (n + 1) n (Nat.lt_succ_self n)

theorem natChars_injective {m n : Nat} (h : natChars m = natChars n) : m = n := by
  have := parseNat_natChars m
  rw [h, parseNat_natChars] at this
  omega

theorem labelChars_injective {m n : Nat} (h : labelChars m = labelChars n) : m = n := by
  apply natChars_injective
  exact List.append_cancel_left h

theorem chapLabel_injective {m n : Nat} (h : chapLabel m = chapLabel n) : m = n := by
  apply natChars_injective
  exact List.append_cancel_left h

theorem chapLabel_ne_labelChars (i j : Nat) : chapLabel i ≠ labelChars j := by
  intro h
  have hh : (some 'c' : Option Char) = some 'l' := congrArg List.head? h
  simp at hh

/-! ## Lemmas: the walk is the fold of the step over the flattened
pre-order entry sequence -/

mutual
theorem walkForest_eq_foldl : ∀ (st : ScanSt) (l : OutlineForest),
    walkForest st l = (flattenForest l).foldl stepEntry st
  | _, .nil => rfl
  | st, .cons it rest => by
    rw [walkForest, flattenForest, List.foldl_append,
      walkForest_eq_foldl (walkItem st it) rest, walkItem_eq_foldl st it]

theorem walkItem_eq_foldl : ∀ (st : ScanSt) (it : OutlineItem),
    walkItem st it = (flattenItem it).foldl stepEntry st
  | _, .entry t p => rfl
  | st, .group cs => by
    rw [walkItem, flattenItem, walkForest_eq_foldl st cs]
end

theorem stepEntry_of_errored (st : ScanSt) (e : List Char × Option Nat)
    (h : st.errored = true) : stepEntry st e = st := by
  simp [stepEntry, h]

theorem foldl_stepEntry_of_errored :
    ∀ (es : List (List Char × Option Nat)) (st : ScanSt), st.errored = true →
      es.foldl stepEntry st = st := by
  intro es
  induction es with
  | nil => intro st _; rfl
  | cons e rest ih =>
    intro st h
    rw [List.foldl_cons, stepEntry_of_errored st e h, ih st h]

theorem walkForest_of_errored (st : ScanSt) (l : OutlineForest) (h : st.errored = true) :
    walkForest st l = st := by
  rw [walkForest_eq_foldl, foldl_stepEntry_of_errored _ st h]

/-! ## Lemmas: the shapes of the four branches of the loop body -/

/-- Abbreviation for the bookmark a section-pattern entry appends. -/
def sectionBookmark (title : List Char) (q : Nat) (n : Nat) : Bookmark :=
  Bookmark.mk (q + 1)
    (if (rstripDots (spaceWord title)).count '.' = 1 then "section" else "subsection")
    (if (rstripDots (spaceWord title)).count '.' = 1 then 1 else 2)
    (pyStrip (sectionStrip title)) (labelChars n)

theorem processEntry_chapter (st : ScanSt) (t : List Char) (p : Option Nat)
    (h1 : (chapterStrip (normTitle t)).isSome = true) :
    processEntry st t p = ScanSt.mk st.bookmarks (some (chapterFound (normTitle t))) st.errored := by
  simp [processEntry, h1]

theorem processEntry_bareInt (st : ScanSt) (t : List Char) (p : Option Nat)
    (h1 : ¬(chapterStrip (normTitle t)).isSome = true)
    (h2 : bareIntMatch (normTitle t) = true ∧ '.' ∉ firstPart (normTitle t)) :
    processEntry st t p
      = ScanSt.mk st.bookmarks (some (pyStrip (bareIntStrip (normTitle t)))) st.errored := by
  simp [processEntry, h1, h2]

theorem processEntry_section_some (st : ScanSt) (t : List Char) (q : Nat)
    (h1 : ¬(chapterStrip (normTitle t)).isSome = true)
    (h2 : ¬(bareIntMatch (normTitle t) = true ∧ '.' ∉ firstPart (normTitle t)))
    (h3 : sectionMatch (normTitle t) = true) :
    processEntry st t (some q)
      = ScanSt.mk (st.bookmarks ++ [sectionBookmark (normTitle t) q st.bookmarks.length])
          st.foundChapterTitle st.errored := by
  simp [processEntry, sectionBookmark, h1, h2, h3]

theorem processEntry_section_none (st : ScanSt) (t : List Char)
    (h1 : ¬(chapterStrip (normTitle t)).isSome = true)
    (h2 : ¬(bareIntMatch (normTitle t) = true ∧ '.' ∉ firstPart (normTitle t)))
    (h3 : sectionMatch (normTitle t) = true) :
    processEntry st t none = ScanSt.mk st.bookmarks st.foundChapterTitle true := by
  simp [processEntry, h1, h2, h3]

theorem processEntry_skip (st : ScanSt) (t : List Char) (p : Option Nat)
    (h1 : ¬(chapterStrip (normTitle t)).isSome = true)
    (h2 : ¬(bareIntMatch (normTitle t) = true ∧ '.' ∉ firstPart (normTitle t)))
    (h3 : ¬sectionMatch (normTitle t) = true) :
    processEntry st t p = st := by
  simp [processEntry, h1, h2, h3]

/-! ## Lemmas: what the walk does to the captured chapter title -/

theorem processEntry_foundTitle (st : ScanSt) (t : List Char) (p : Option Nat)
    (herr : (processEntry st t p).errored = false) :
    (processEntry st t p).foundChapterTitle
      = overwriteOpt st.foundChapterTitle (entryTitleEffect (normTitle t)) := by
  by_cases h1 : (chapterStrip (normTitle t)).isSome = true
  · rw [processEntry_chapter st t p h1]
    simp [entryTitleEffect, h1, overwriteOpt]
  · by_cases h2 : bareIntMatch (normTitle t) = true ∧ '.' ∉ firstPart (normTitle t)
    · rw [processEntry_bareInt st t p h1 h2]
      simp [entryTitleEffect, h1, h2, overwriteOpt]
    · by_cases h3 : sectionMatch (normTitle t) = true
      · cases p with
        | none => rw [processEntry_section_none st t h1 h2 h3] at herr; exact Bool.noConfusion herr
        | some q =>
          rw [processEntry_section_some st t q h1 h2 h3]
          simp [entryTitleEffect, h1, h2, h3, overwriteOpt]
      · rw [processEntry_skip st t p h1 h2 h3]
        simp [entryTitleEffect, h1, h2, h3, overwriteOpt]

theorem foldl_stepEntry_foundTitle :
    ∀ (es : List (List Char × Option Nat)) (st : ScanSt),
      (es.foldl stepEntry st).errored = false →
      (es.foldl stepEntry st).foundChapterTitle = lastTitleFrom st.foundChapterTitle es := by
  intro es
  induction es with
  | nil => intro st _; rfl
  | cons e rest ih =>
    intro st h
    have hst : st.errored = false := by
      cases hbe : st.errored
      · rfl
      · rw [List.foldl_cons, stepEntry_of_errored st e hbe,
          foldl_stepEntry_of_errored rest st hbe] at h
        rw [h] at hbe
        exact Bool.noConfusion hbe
    have hse : stepEntry st e = processEntry st e.1 e.2 := by
      simp [stepEntry, hst]
    have hst' : (stepEntry st e).errored = false := by
      cases hbe : (stepEntry st e).errored
      · rfl
      · rw [List.foldl_cons, foldl_stepEntry_of_errored rest _ hbe] at h
        rw [h] at hbe
        exact Bool.noConfusion hbe
    rw [List.foldl_cons] at h ⊢
    rw [ih (stepEntry st e) h]
    have hft : (stepEntry st e).foundChapterTitle
        = overwriteOpt st.foundChapterTitle (entryTitleEffect (normTitle e.1)) := by
      rw [hse]
      exact processEntry_foundTitle st e.1 e.2 (by rw [← hse]; exact hst')
    rw [lastTitleFrom, lastTitleFrom, List.foldl_cons, hft]

/-- The nonlocal found_chapter_title after an error-free walk is the
last value captured along the pre-order entry sequence. -/
theorem walkForest_foundTitle (l : OutlineForest)
    (h : (walkForest initSt l).errored = false) :
    (walkForest initSt l).foundChapterTitle = lastTitleFrom none (flattenForest l) := by
  rw [walkForest_eq_foldl] at h ⊢
  exact foldl_stepEntry_foundTitle (flattenForest l) initSt h

/-! ## Lemmas: levels and labels of the collected bookmarks -/

/-- Every bookmark of the list is at level section or subsection. -/
def levelsGood (bs : List Bookmark) : Prop :=
  ∀ b ∈ bs, b.level = "section" ∨ b.level = "subsection"

/-- The labels of the list are label0, label1, ... in order. -/
def labelsGood (bs : List Bookmark) : Prop :=
  bs.map Bookmark.label = (List.range bs.length).map labelChars

theorem labelsGood_append (bs : List Bookmark) (b : Bookmark) (h : labelsGood bs)
    (hb : b.label = labelChars bs.length) : labelsGood (bs ++ [b]) := by
  unfold labelsGood at h ⊢
  simp [List.range_succ, h, hb]

theorem stepEntry_bookmarks_shape (st : ScanSt) (e : List Char × Option Nat) :
    (stepEntry st e).bookmarks = st.bookmarks ∨
      ∃ q, e.2 = some q ∧ (stepEntry st e).bookmarks
        = st.bookmarks ++ [sectionBookmark (normTitle e.1) q st.bookmarks.length] := by
  by_cases hst : st.errored = true
  · left; rw [stepEntry_of_errored st e hst]
  · have hse : stepEntry st e = processEntry st e.1 e.2 := by
      simp [stepEntry]
      intro hc
      exact absurd hc hst
    rw [hse]
    by_cases h1 : (chapterStrip (normTitle e.1)).isSome = true
    · left; rw [processEntry_chapter st e.1 e.2 h1]
    · by_cases h2 : bareIntMatch (normTitle e.1) = true ∧ '.' ∉ firstPart (normTitle e.1)
      · left; rw [processEntry_bareInt st e.1 e.2 h1 h2]
      · by_cases h3 : sectionMatch (normTitle e.1) = true
        · cases hp : e.2 with
          | none => left; rw [processEntry_section_none st e.1 h1 h2 h3]
          | some q =>
            right
            exact ⟨q, rfl, by rw [processEntry_section_some st e.1 q h1 h2 h3]⟩
        · left; rw [processEntry_skip st e.1 e.2 h1 h2 h3]

theorem stepEntry_levels (st : ScanSt) (e : List Char × Option Nat)
    (h : levelsGood st.bookmarks) : levelsGood ((stepEntry st e).bookmarks) := by
  rcases stepEntry_bookmarks_shape st e with hb | ⟨q, _, hb⟩
  · rw [hb]; exact h
  · rw [hb]
    intro b hmem
    rcases List.mem_append.mp hmem with hm | hm
    · exact h b hm
    · have hb' : b = sectionBookmark (normTitle e.1) q st.bookmarks.length := by
        simpa using hm
      rw [hb']
      unfold sectionBookmark
      by_cases hcnt : (rstripDots (spaceWord (normTitle e.1))).count '.' = 1
      · left; simp [hcnt]
      · right; simp [hcnt]

theorem stepEntry_labels (st : ScanSt) (e : List Char × Option Nat)
    (h : labelsGood st.bookmarks) : labelsGood ((stepEntry st e).bookmarks) := by
  rcases stepEntry_bookmarks_shape st e with hb | ⟨q, _, hb⟩
  · rw [hb]; exact h
  · rw [hb]
    exact labelsGood_append st.bookmarks _ h rfl

theorem foldl_stepEntry_levels (es : List (List Char × Option Nat)) :
    ∀ st : ScanSt, levelsGood st.bookmarks → levelsGood ((es.foldl stepEntry st).bookmarks) := by
  induction es with
  | nil => intro st h; exact h
  | cons e rest ih =>
    intro st h
    rw [List.foldl_cons]
    exact ih (stepEntry st e) (stepEntry_levels st e h)

theorem foldl_stepEntry_labels (es : List (List Char × Option Nat)) :
    ∀ st : ScanSt, labelsGood st.bookmarks → labelsGood ((es.foldl stepEntry st).bookmarks) := by
  induction es with
  | nil => intro st h; exact h
  | cons e rest ih =>
    intro st h
    rw [List.foldl_cons]
    exact ih (stepEntry st e) (stepEntry_labels st e h)
/-! ## Lemmas: the shape of get_pdf_bookmarks results -/

theorem getPdfBookmarks_noReader (doc : PdfDoc) (h : doc.readerOk = false) :
    getPdfBookmarks doc = ([], none) := by
  simp [getPdfBookmarks, h]

theorem getPdfBookmarks_fst (doc : PdfDoc) :
    (getPdfBookmarks doc).1
      = (if doc.readerOk then (walkForest initSt doc.outline).bookmarks else []) := by
  unfold getPdfBookmarks
  cases hro : doc.readerOk with
  | false => simp
  | true =>
    simp only [if_pos]
    cases hout : doc.outline with
    | nil =>
      simp only [isNilForest, walkForest]
      cases hf : (initSt.errored) <;> simp [initSt]
    | cons it rest =>
      simp only [isNilForest, Bool.false_eq_true, if_false]
      cases herr : (walkForest initSt (OutlineForest.cons it rest)).errored <;> simp [herr]

theorem getPdfBookmarks_of_errored (doc : PdfDoc) (hro : doc.readerOk = true)
    (herr : (walkForest initSt doc.outline).errored = true) :
    getPdfBookmarks doc
      = ((walkForest initSt doc.outline).bookmarks,
          (walkForest initSt doc.outline).foundChapterTitle) := by
  unfold getPdfBookmarks
  rw [hro]
  cases hout : doc.outline with
  | nil =>
    rw [hout] at herr
    exact absurd herr (by simp [walkForest, initSt])
  | cons it rest =>
    rw [hout] at herr
    simp [isNilForest, herr]

/-- With an empty outline and a readable first page, the recovered title
is exactly what the first-page-text fallback returns. -/
theorem getPdfBookmarks_snd_fallback (txt : List Char) (ps : List (Option (List Char))) :
    (getPdfBookmarks (PdfDoc.mk true OutlineForest.nil (some txt :: ps))).2
      = fallbackScan (splitLines txt) := by
  unfold getPdfBookmarks
  cases hf : fallbackScan (splitLines txt) <;>
    simp [isNilForest, walkForest, initSt, pyTruthyOpt, hf]

theorem getPdfBookmarks_labels (doc : PdfDoc) :
    (getPdfBookmarks doc).1.map Bookmark.label
      = (List.range (getPdfBookmarks doc).1.length).map labelChars := by
  have hbase : labelsGood ([] : List Bookmark) := by
    unfold labelsGood
    rfl
  rw [getPdfBookmarks_fst]
  cases hro : doc.readerOk with
  | false => simp [hbase]
  | true =>
    simp only [if_pos]
    have h := foldl_stepEntry_labels (flattenForest doc.outline) initSt hbase
    rw [← walkForest_eq_foldl] at h
    exact h

theorem getPdfBookmarks_levels (doc : PdfDoc) :
    ∀ b ∈ (getPdfBookmarks doc).1, b.level = "section" ∨ b.level = "subsection" := by
  have hbase : levelsGood ([] : List Bookmark) := by
    intro b hb
    exact absurd hb (List.not_mem_nil b)
  rw [getPdfBookmarks_fst]
  cases hro : doc.readerOk with
  | false =>
    simp only [Bool.false_eq_true, if_false]
    intro b hb
    exact absurd hb (List.not_mem_nil b)
  | true =>
    simp only [if_pos]
    have h := foldl_stepEntry_levels (flattenForest doc.outline) initSt hbase
    rw [← walkForest_eq_foldl] at h
    exact h

/-! ## Lemmas: per-chapter directive blocks -/

theorem docDirectives_none (i : Nat) (nm : List Char) :
    docDirectives i (ChapterRec.mk nm none) = [] := rfl

theorem docDirectives_some (i : Nat) (nm : List Char) (doc : PdfDoc) :
    docDirectives i (ChapterRec.mk nm (some doc))
      = TocDirective.mk 1 "chapter" 0 (chooseTitle (getPdfBookmarks doc).2 nm) (chapLabel i)
          :: (getPdfBookmarks doc).1.map bookmarkDirective := rfl

/-- Within one chapter block all labels are pairwise distinct: the
chapter label chapI followed by label0, label1, ... -/
theorem docDirectives_labels_nodup (i : Nat) (nm : List Char) (doc : PdfDoc) :
    ((docDirectives i (ChapterRec.mk nm (some doc))).map TocDirective.label).Nodup := by
  rw [docDirectives_some]
  simp only [List.map_cons, List.map_map]
  have hcomp : (TocDirective.label ∘ bookmarkDirective) = Bookmark.label := by
    funext b
    rfl
  rw [hcomp, getPdfBookmarks_labels]
  constructor
  · intro x hx
    rcases List.mem_map.mp hx with ⟨j, _, hj⟩
    rw [← hj]
    exact chapLabel_ne_labelChars i j
  · exact List.Nodup.map (fun a b h => labelChars_injective h) (List.nodup_range _)

/-! ## Lemmas: the indexing loop on clean documents -/

/-- All page numbers collected so far are below the current counter. -/
def pagesBelow (b : Nat) (m : List (List Char × List Nat)) : Prop :=
  ∀ e ∈ m, ∀ p ∈ e.2, p < b

theorem matchPagesFrom_bounds (k : List Char) :
    ∀ (ts : List (List Char)) (b p : Nat), p ∈ matchPagesFrom k b ts →
      b ≤ p ∧ p < b + ts.length := by
  intro ts
  induction ts with
  | nil => intro b p hp; exact absurd hp (List.not_mem_nil p)
  | cons t rest ih =>
    intro b p hp
    rw [matchPagesFrom] at hp
    rcases List.mem_append.mp hp with hm | hm
    · by_cases hc : containsSub (lowerStr t) (lowerStr k) = true
      · rw [if_pos hc] at hm
        have : p = b := by simpa using hm
        subst this
        refine ⟨Nat.le_refl _, ?_⟩
        simp only [List.length_cons]
        omega
      · rw [if_neg hc] at hm
        exact absurd hm (List.not_mem_nil p)
    · have := ih (b + 1) p hm
      constructor
      · omega
      · simp only [List.length_cons]
        omega

theorem updateMap_of_below (m : List (List Char × List Nat)) (tl : List Char) (b : Nat)
    (hb : pagesBelow b m) :
    updateMap m tl b
      = m.map (fun e => (e.1, e.2 ++ (if containsSub tl (lowerStr e.1) then [b] else []))) := by
  unfold updateMap
  apply List.map_congr_left
  intro e he
  by_cases hc : containsSub tl (lowerStr e.1) = true
  · rw [if_pos hc, if_pos hc]
    have hnot : b ∉ e.2 := by
      intro hmem
      exact absurd (hb e he b hmem) (by omega)
    rw [addPage, if_neg hnot]
  · rw [if_neg hc, if_neg hc]
    simp

theorem scanPagesAux_clean :
    ∀ (ts : List (List Char)) (m : List (List Char × List Nat)) (g i : Nat),
      pagesBelow (g + i) m →
      scanPagesAux m g i (ts.map some)
        = (m.map (fun e => (e.1, e.2 ++ matchPagesFrom e.1 (g + i) ts)), true) := by
  intro ts
  induction ts with
  | nil =>
    intro m g i _
    simp [scanPagesAux, matchPagesFrom]
  | cons t rest ih =>
    intro m g i hb
    rw [List.map_cons, scanPagesAux, currentPageNum, updateMap_of_below m (lowerStr t) (g + i) hb]
    have hb' : pagesBelow (g + (i + 1))
        (m.map (fun e => (e.1, e.2 ++ (if containsSub (lowerStr t) (lowerStr e.1) then [g + i] else [])))) := by
      intro e he p hp
      rcases List.mem_map.mp he with ⟨e0, he0, heq⟩
      rw [← heq] at hp
      simp only at hp
      rcases List.mem_append.mp hp with hm | hm
      · have := hb e0 he0 p hm
        omega
      · by_cases hc : containsSub (lowerStr t) (lowerStr e0.1) = true
        · rw [if_pos hc] at hm
          have : p = g + i := by simpa using hm
          omega
        · rw [if_neg hc] at hm
          exact absurd hm (List.not_mem_nil p)
    rw [ih _ g (i + 1) hb']
    rw [List.map_map]
    congr 1
    apply List.map_congr_left
    intro e _
    simp only [Function.comp_apply, matchPagesFrom, List.append_assoc, Nat.add_assoc]

theorem indexChapter_clean (st : IndexSt) (d : List (List Char))
    (hb : pagesBelow st.globalPage st.kmap) :
    indexChapter st (cleanChapter d)
      = IndexSt.mk (st.kmap.map (fun e => (e.1, e.2 ++ matchPagesFrom e.1 st.globalPage d)))
          (st.globalPage + d.length) := by
  have hb0 : pagesBelow (st.globalPage + 0) st.kmap := by
    rw [Nat.add_zero]
    exact hb
  rw [cleanChapter, indexChapter]
  simp only [if_pos]
  rw [scanPagesAux_clean d st.kmap st.globalPage 0 hb0]
  simp [Nat.add_zero]

theorem foldl_indexChapter_clean :
    ∀ (docs : List (List (List Char))) (m : List (List Char × List Nat)) (b : Nat),
      pagesBelow b m →
      (cleanChapters docs).foldl indexChapter (IndexSt.mk m b)
        = IndexSt.mk (m.map (fun e => (e.1, e.2 ++ docsMatchPagesFrom e.1 b docs)))
            (b + totalPages docs) := by
  intro docs
  induction docs with
  | nil =>
    intro m b _
    simp [cleanChapters, docsMatchPagesFrom, totalPages]
  | cons d rest ih =>
    intro m b hb
    rw [cleanChapters, List.map_cons, List.foldl_cons]
    have hstep := indexChapter_clean (IndexSt.mk m b) d hb
    simp only at hstep
    rw [hstep]
    have hb' : pagesBelow (b + d.length)
        (m.map (fun e => (e.1, e.2 ++ matchPagesFrom e.1 b d))) := by
      intro e he p hp
      rcases List.mem_map.mp he with ⟨e0, he0, heq⟩
      rw [← heq] at hp
      simp only at hp
      rcases List.mem_append.mp hp with hm | hm
      · have := hb e0 he0 p hm
        omega
      · exact (matchPagesFrom_bounds e0.1 d b p hm).2
    have hrest := ih (m.map (fun e => (e.1, e.2 ++ matchPagesFrom e.1 b d))) (b + d.length) hb'
    rw [cleanChapters] at hrest
    rw [hrest, List.map_map]
    have hmap : ∀ e : List Char × List Nat,
        ((fun e : List Char × List Nat => (e.1, e.2 ++ docsMatchPagesFrom e.1 (b + d.length) rest)) ∘
        fun e : List Char × List Nat => (e.1, e.2 ++ matchPagesFrom e.1 b d)) e
          = (fun e : List Char × List Nat => (e.1, e.2 ++ docsMatchPagesFrom e.1 b (d :: rest))) e := by
      intro e
      simp only [Function.comp_apply, docsMatchPagesFrom, List.append_assoc]
    rw [List.map_congr_left (fun e _ => hmap e)]
    have htot : totalPages (d :: rest) = d.length + totalPages rest := by
      simp [totalPages]
    rw [htot]
    congr 1
    omega

theorem pagesBelow_initMap (ks : List (List Char)) (b : Nat) : pagesBelow b (initMap ks) := by
  intro e he p hp
  rcases List.mem_map.mp he with ⟨k, _, heq⟩
  rw [← heq] at hp
  exact absurd hp (List.not_mem_nil p)

/-- The keyword map of a clean run collects, for each distinct keyword in
first-occurrence order, exactly the global pages computed by matchPages,
and global_page ends at 1 plus the total page count. -/
theorem extractKeywordsRun_clean (ks : List (List Char)) (docs : List (List (List Char))) :
    extractKeywordsRun ks (cleanChapters docs)
      = IndexSt.mk ((dedupKeys ks).map (fun k => (k, matchPages k docs)))
          (1 + totalPages docs) := by
  rw [extractKeywordsRun, foldl_indexChapter_clean docs (initMap ks) 1 (pagesBelow_initMap ks 1)]
  rw [initMap, List.map_map]
  have hmap : ∀ k : List Char,
      ((fun e : List Char × List Nat => (e.1, e.2 ++ docsMatchPagesFrom e.1 1 docs)) ∘
        fun k : List Char => (k, ([] : List Nat))) k
        = (fun k : List Char => (k, matchPages k docs)) k := by
    intro k
    simp [matchPages]
  rw [List.map_congr_left (fun k _ => hmap k)]

/-! ## Lemmas: the matching pages are strictly ascending, and sorting is
the identity on them -/

theorem matchPagesFrom_append (k : List Char) :
    ∀ (xs ys : List (List Char)) (b : Nat),
      matchPagesFrom k b (xs ++ ys)
        = matchPagesFrom k b xs ++ matchPagesFrom k (b + xs.length) ys := by
  intro xs
  induction xs with
  | nil =>
    intro ys b
    simp [matchPagesFrom]
  | cons x rest ih =>
    intro ys b
    rw [List.cons_append, matchPagesFrom, matchPagesFrom, ih ys (b + 1), List.append_assoc]
    have : b + 1 + rest.length = b + (rest.length + 1) := by omega
    rw [this]
    rfl

theorem docsMatchPagesFrom_eq_flatten (k : List Char) :
    ∀ (docs : List (List (List Char))) (b : Nat),
      docsMatchPagesFrom k b docs = matchPagesFrom k b docs.flatten := by
  intro docs
  induction docs with
  | nil => intro b; rfl
  | cons d rest ih =>
    intro b
    rw [docsMatchPagesFrom, ih (b + d.length), List.flatten_cons, matchPagesFrom_append]

theorem matchPagesFrom_pairwise (k : List Char) :
    ∀ (ts : List (List Char)) (b : Nat), (matchPagesFrom k b ts).Pairwise (· < ·) := by
  intro ts
  induction ts with
  | nil => intro b; exact List.Pairwise.nil
  | cons t rest ih =>
    intro b
    rw [matchPagesFrom]
    apply List.pairwise_append.mpr
    refine ⟨?_, ih (b + 1), ?_⟩
    · by_cases hc : containsSub (lowerStr t) (lowerStr k) = true
      · rw [if_pos hc]
        simp
      · rw [if_neg hc]
        exact List.Pairwise.nil
    · intro x hx y hy
      by_cases hc : containsSub (lowerStr t) (lowerStr k) = true
      · rw [if_pos hc] at hx
        have hxb : x = b := by simpa using hx
        have := matchPagesFrom_bounds k rest (b + 1) y hy
        omega
      · rw [if_neg hc] at hx
        exact absurd hx (List.not_mem_nil x)

theorem matchPages_pairwise (k : List Char) (docs : List (List (List Char))) :
    (matchPages k docs).Pairwise (· < ·) := by
  rw [matchPages, docsMatchPagesFrom_eq_flatten]
  exact matchPagesFrom_pairwise k docs.flatten 1

theorem insertSorted_of_le (x : Nat) (l : List Nat) (h : ∀ y ∈ l, x ≤ y) :
    insertSorted x l = x :: l := by
  cases l with
  | nil => rfl
  | cons y ys =>
    rw [insertSorted, if_pos (h y (List.mem_cons_self y ys))]

theorem insSort_of_sorted : ∀ l : List Nat, l.Pairwise (· ≤ ·) → insSort l = l := by
  intro l
  induction l with
  | nil => intro _; rfl
  | cons x xs ih =>
    intro h
    rw [insSort, ih (List.Pairwise.sublist (List.sublist_cons_self x xs) h)]
    exact insertSorted_of_le x xs (fun y hy => (List.pairwise_cons.mp h).1 y hy)

theorem insSort_matchPages (k : List Char) (docs : List (List (List Char))) :
    insSort (matchPages k docs) = matchPages k docs :=
  insSort_of_sorted (matchPages k docs)
    ((matchPages_pairwise k docs).imp (fun h => Nat.le_of_lt h))

/-- Membership characterization: page p is collected for keyword k
exactly when p numbers (from base b) a page of ts whose lowercased text
contains the lowercased keyword. -/
theorem matchPagesFrom_mem (k : List Char) :
    ∀ (ts : List (List Char)) (b p : Nat),
      p ∈ matchPagesFrom k b ts
        ↔ ∃ j, j < ts.length ∧ p = b + j
            ∧ containsSub (lowerStr (ts.getD j [])) (lowerStr k) = true := by
  intro ts
  induction ts with
  | nil =>
    intro b p
    constructor
    · intro hp; exact absurd hp (List.not_mem_nil p)
    · rintro ⟨j, hj, _⟩
      exact absurd hj (by simp)
  | cons t rest ih =>
    intro b p
    rw [matchPagesFrom]
    constructor
    · intro hp
      rcases List.mem_append.mp hp with hm | hm
      · by_cases hc : containsSub (lowerStr t) (lowerStr k) = true
        · rw [if_pos hc] at hm
          have hpb : p = b := by simpa using hm
          exact ⟨0, by simp, by omega, by simpa using hc⟩
        · rw [if_neg hc] at hm
          exact absurd hm (List.not_mem_nil p)
      · rcases (ih (b + 1) p).mp hm with ⟨j, hj, hpj, hcj⟩
        refine ⟨j + 1, by simpa using hj, by omega, ?_⟩
        simpa using hcj
    · rintro ⟨j, hj, hpj, hcj⟩
      apply List.mem_append.mpr
      cases j with
      | zero =>
        left
        rw [if_pos (by simpa using hcj)]
        simp
        omega
      | succ j0 =>
        right
        apply (ih (b + 1) p).mpr
        refine ⟨j0, by simpa using hj, by omega, by simpa using hcj⟩

theorem matchPages_mem (k : List Char) (docs : List (List (List Char))) (p : Nat) :
    p ∈ matchPages k docs
      ↔ ∃ j, j < docs.flatten.length ∧ p = 1 + j
          ∧ containsSub (lowerStr (docs.flatten.getD j [])) (lowerStr k) = true := by
  rw [matchPages, docsMatchPagesFrom_eq_flatten]
  exact matchPagesFrom_mem k docs.flatten 1 p

/-- The full closed form of extract_keywords on a clean run. -/
theorem extractKeywords_clean (ks : List (List Char)) (docs : List (List (List Char))) :
    extractKeywords ks (cleanChapters docs)
      = (dedupKeys ks).filterMap
          (fun k => if (matchPages k docs).isEmpty then none
                    else some (k, matchPages k docs)) := by
  rw [extractKeywords, extractKeywordsRun_clean]
  simp only [List.filterMap_map]
  have hfun : (fun k : List Char =>
      (if ((k, matchPages k docs).2).isEmpty then none
       else some ((k, matchPages k docs).1, insSort ((k, matchPages k docs).2))))
        = (fun k : List Char => if (matchPages k docs).isEmpty then none
            else some (k, matchPages k docs)) := by
    funext k
    by_cases hc : (matchPages k docs).isEmpty = true
    · simp [hc]
    · simp only at hc ⊢
      rw [if_neg hc, if_neg hc, insSort_matchPages]
  rw [← hfun]
  rfl

/-! ## Lemmas: the global page counter on clean runs -/

theorem baseAfter_eq (ks : List (List Char)) (docs : List (List (List Char))) (n : Nat) :
    baseAfter ks docs n = 1 + totalPages (docs.take n) := by
  rw [baseAfter, extractKeywordsRun_clean]

theorem totalPages_take_succ (docs : List (List (List Char))) (d : Nat) (h : d < docs.length) :
    totalPages (docs.take (d + 1)) = totalPages (docs.take d) + (docs.getD d []).length := by
  rw [List.take_succ]
  have hget : docs[d]? = some (docs.getD d []) := by
    rw [List.getD_eq_getElem?_getD, List.getElem?_eq_getElem h]
    rfl
  rw [hget]
  simp [totalPages]

/-! ## Lemmas: a failing page aborts the per-chapter scan -/

theorem scanPagesAux_abort :
    ∀ (ts : List (List Char)) (m : List (List Char × List Nat)) (g i : Nat)
      (rest : List (Option (List Char))),
      scanPagesAux m g i (ts.map some ++ none :: rest)
        = ((scanPagesAux m g i (ts.map some)).1, false) := by
  intro ts
  induction ts with
  | nil =>
    intro m g i rest
    rfl
  | cons t ts' ih =>
    intro m g i rest
    rw [List.map_cons, List.cons_append, scanPagesAux, scanPagesAux,
      ih (updateMap m (lowerStr t) (currentPageNum g i)) g (i + 1) rest]

theorem indexChapter_abort (st : IndexSt) (nm : List Char) (outl : OutlineForest)
    (ts : List (List Char)) (rest : List (Option (List Char))) :
    indexChapter st (ChapterRec.mk nm (some (PdfDoc.mk true outl (ts.map some ++ none :: rest))))
      = IndexSt.mk (scanPagesAux st.kmap st.globalPage 0 (ts.map some)).1 st.globalPage := by
  rw [indexChapter]
  simp only [if_pos]
  rw [scanPagesAux_abort ts st.kmap st.globalPage 0 rest]

/-! ## Lemmas: the first-page-text fallback loop -/

theorem scanLinesGo_found :
    ∀ (pre : List (List Char)) (line : List Char) (rest : List (List Char)),
      (∀ l ∈ pre, chapterStrip (pyStrip l) = none) →
      (chapterStrip (pyStrip line)).isSome = true →
      scanLinesGo (pre ++ line :: rest)
        = some (if (pyStrip ((chapterStrip (pyStrip line)).getD [])).isEmpty
                then pyStrip line
                else pyStrip ((chapterStrip (pyStrip line)).getD [])) := by
  intro pre
  induction pre with
  | nil =>
    intro line rest _ hsome
    rw [List.nil_append]
    cases hcs : chapterStrip (pyStrip line) with
    | none => rw [hcs] at hsome; exact Bool.noConfusion hsome
    | some r => simp [scanLinesGo, hcs]
  | cons l0 pre' ih =>
    intro line rest hpre hsome
    rw [List.cons_append, scanLinesGo]
    rw [hpre l0 (List.mem_cons_self l0 pre')]
    exact ih line rest (fun l hl => hpre l (List.mem_cons_of_mem l0 hl)) hsome

theorem take_five_split (pre : List (List Char)) (line : List Char) (rest : List (List Char))
    (h5 : pre.length < 5) :
    (pre ++ line :: rest).take 5 = pre ++ line :: rest.take (4 - pre.length) := by
  rw [List.take_append_eq_append_take, List.take_of_length_le (by omega)]
  have h1 : 5 - pre.length = (4 - pre.length) + 1 := by omega
  rw [h1, List.take_succ_cons]

/-! ## Lemmas: result title when the walk captured a truthy title -/

theorem getPdfBookmarks_snd_truthy (doc : PdfDoc) (hro : doc.readerOk = true)
    (herr : (walkForest initSt doc.outline).errored = false)
    (ht : pyTruthyOpt (walkForest initSt doc.outline).foundChapterTitle = true) :
    (getPdfBookmarks doc).2 = (walkForest initSt doc.outline).foundChapterTitle := by
  unfold getPdfBookmarks
  rw [hro]
  cases hout : doc.outline with
  | nil =>
    rw [hout] at ht
    exact absurd ht (by simp [walkForest, initSt, pyTruthyOpt])
  | cons it rest =>
    rw [hout] at herr ht
    simp [isNilForest, herr, ht]

/-! ## Lemmas: pages carried by the emitted directives -/

theorem docDirectives_pages (i : Nat) (nm : List Char) (doc : PdfDoc) :
    (docDirectives i (ChapterRec.mk nm (some doc))).map TocDirective.page
      = 1 :: (getPdfBookmarks doc).1.map Bookmark.pageNum := by
  rw [docDirectives_some]
  simp only [List.map_cons, List.map_map]
  have hcomp : (TocDirective.page ∘ bookmarkDirective) = Bookmark.pageNum := by
    funext b
    rfl
  rw [hcomp]

/-! ## Lemmas: exactly one chapter-level directive per emitted block -/

theorem docDirectives_chapter_count (i : Nat) (nm : List Char) (doc : PdfDoc) :
    (docDirectives i (ChapterRec.mk nm (some doc))).countP (fun d => d.level == "chapter") = 1 := by
  rw [docDirectives_some]
  rw [List.countP_cons_of_pos _ _ (by simp)]
  have hz : ((getPdfBookmarks doc).1.map bookmarkDirective).countP
      (fun d => d.level == "chapter") = 0 := by
    apply List.countP_eq_zero.mpr
    intro d hd
    rcases List.mem_map.mp hd with ⟨b, hb, hbd⟩
    rcases getPdfBookmarks_levels doc b hb with hlev | hlev <;>
      simp [← hbd, bookmarkDirective, hlev]
  rw [hz]

/-! ## Lemmas: key membership in the final mapping -/

theorem extractKeywords_mem (ks : List (List Char)) (docs : List (List (List Char)))
    (k : List Char) (l : List Nat) :
    (k, l) ∈ extractKeywords ks (cleanChapters docs)
      ↔ k ∈ dedupKeys ks ∧ matchPages k docs ≠ [] ∧ l = matchPages k docs := by
  rw [extractKeywords_clean]
  constructor
  · intro hmem
    rcases List.mem_filterMap.mp hmem with ⟨a, ha, hfa⟩
    by_cases he : (matchPages a docs).isEmpty = true
    · rw [if_pos he] at hfa
      exact Option.noConfusion hfa
    · rw [if_neg he] at hfa
      have hak : a = k ∧ matchPages a docs = l := by
        have := Option.some.inj hfa
        exact ⟨congrArg Prod.fst this, congrArg Prod.snd this⟩
      rcases hak with ⟨hak1, hak2⟩
      subst hak1
      refine ⟨ha, ?_, hak2.symm⟩
      intro hnil
      rw [hnil] at he
      exact he rfl
  · rintro ⟨hk, hne, hl⟩
    apply List.mem_filterMap.mpr
    refine ⟨k, hk, ?_⟩
    rw [if_neg (by simpa using hne), hl]

/-! ## Concrete inputs used by the claim theorems below -/

/-- Build an outline forest from a plain list of items. -/
def forestOf : List OutlineItem → OutlineForest
  | [] => OutlineForest.nil
  | it :: rest => OutlineForest.cons it (forestOf rest)

/-- Two chapter-pattern outline entries: the walker keeps the second. -/
def docTwoChapters : PdfDoc :=
  PdfDoc.mk true
    (forestOf [OutlineItem.entry ("Chapter 1: Alpha".toList) none,
               OutlineItem.entry ("Chapter 2: Beta".toList) none])
    []

/-- A chapter title and one good section entry are collected before the
page resolution of the second section entry raises. -/
def docPartialError : PdfDoc :=
  PdfDoc.mk true
    (forestOf [OutlineItem.entry ("Chapter 1: T".toList) none,
               OutlineItem.entry ("1.1 A".toList) (some 0),
               OutlineItem.entry ("1.2 B".toList) none])
    []

/-- A three-page document with no outline and no chapter line. -/
def chThreePages : ChapterRec :=
  ChapterRec.mk ("One".toList)
    (some (PdfDoc.mk true OutlineForest.nil
      [some ("hello".toList), some ("hello".toList), some ("hello".toList)]))

/-- A one-page document whose outline resolves a section to local page 2. -/
def chSectionPage2 : ChapterRec :=
  ChapterRec.mk ("Two".toList)
    (some (PdfDoc.mk true
      (forestOf [OutlineItem.entry ("1.1 Intro".toList) (some 1)])
      [some ("hello".toList)]))

/-- A document whose middle page fails text extraction; the keyword
occurs on the first and on the never-scanned third page. -/
def chMidPageFails : ChapterRec :=
  ChapterRec.mk ("C".toList)
    (some (PdfDoc.mk true OutlineForest.nil
      [some ("x".toList), none, some ("x".toList)]))

/-- First of two documents with one section bookmark each. -/
def chOneSectionA : ChapterRec :=
  ChapterRec.mk ("Doc1".toList)
    (some (PdfDoc.mk true (forestOf [OutlineItem.entry ("1.1 A".toList) (some 0)]) []))

/-- Second of two documents with one section bookmark each. -/
def chOneSectionB : ChapterRec :=
  ChapterRec.mk ("Doc2".toList)
    (some (PdfDoc.mk true (forestOf [OutlineItem.entry ("1.2 B".toList) (some 0)]) []))

/-- An outline title whose numeric token is followed by a tab: the
section pattern matches, but the space-delimited word spans the tab. -/
def docTabTitle : PdfDoc :=
  PdfDoc.mk true (forestOf [OutlineItem.entry ("1.2\t3.4 x".toList) (some 0)]) []

/-- Page-count profile 10, 5, 7 from the spec's worked example. -/
def docsTenFiveSeven : List (List (List Char)) :=
  [List.replicate 10 [], List.replicate 5 [], List.replicate 7 []]

/-! ## Claim C1 -/

/-- Claim C1, counterexample. With two chapter-pattern outline entries,
Chapter 1: Alpha before Chapter 2: Beta in traversal order, the recovered
ChapterTitle is Beta, not the first match Alpha: each match overwrites
the nonlocal found_chapter_title, so later matches are not ignored. -/
theorem C1_first_match_counterexample :
    getPdfBookmarks docTwoChapters = ([], some ("Beta".toList))
      ∧ ¬ getPdfBookmarks docTwoChapters = ([], some ("Alpha".toList)) := by
  decide

/-- Claim C1, amended. For every Document whose outline walk completes
without error and captures a truthy title, the recovered ChapterTitle is
the one extracted from the LAST matching entry in traversal order: the
capture is an overwriting fold over the pre-order entry sequence, so
later matches replace earlier ones. -/
theorem C1_last_match_overwrites (doc : PdfDoc) (hro : doc.readerOk = true)
    (herr : (walkForest initSt doc.outline).errored = false)
    (ht : pyTruthyOpt (lastTitleFrom none (flattenForest doc.outline)) = true) :
    (getPdfBookmarks doc).2 = lastTitleFrom none (flattenForest doc.outline) := by
  have hft := walkForest_foundTitle doc.outline herr
  rw [← hft] at ht ⊢
  exact getPdfBookmarks_snd_truthy doc hro herr ht

/-- Witness for C1_last_match_overwrites at the two-chapter document. -/
theorem C1_last_match_overwrites_witness :
    (getPdfBookmarks docTwoChapters).2 = some ("Beta".toList) := by
  have h := C1_last_match_overwrites docTwoChapters rfl (by decide) (by decide)
  rw [h]
  decide

/-! ## Claim C2 -/

/-- Claim C2, counterexample. The second document's section at local page
2 is emitted with page 2, and its chapter directive with page 1, although
the first document holds 3 pages: the claim's translated values would be
5 and 4. No global page offset is ever added to a TOC directive. -/
theorem C2_global_pages_counterexample :
    createMasterLatex [chThreePages, chSectionPage2] false
        = [TocDirective.mk 1 "chapter" 0 ("One".toList) ("chap1".toList),
           TocDirective.mk 1 "chapter" 0 ("Two".toList) ("chap2".toList),
           TocDirective.mk 2 "section" 1 ("Intro".toList) ("label0".toList)]
      ∧ (createMasterLatex [chThreePages, chSectionPage2] false).map TocDirective.page = [1, 1, 2]
      ∧ ¬ (createMasterLatex [chThreePages, chSectionPage2] false).map TocDirective.page
            = [1, 1 + 3, 2 + 3] := by
  decide

/-- Claim C2, amended. Every emitted TOC directive carries a LOCAL page
number: the chapter directive always carries page 1 and each
section/subsection directive carries its bookmark's local page, which is
the 0-indexed resolved destination plus one; no cumulative page count of
preceding Documents is added (the global placement is delegated to the
typesetter's inclusion order). -/
theorem C2_local_pages :
    (∀ (i : Nat) (nm : List Char) (doc : PdfDoc),
      (docDirectives i (ChapterRec.mk nm (some doc))).map TocDirective.page
        = 1 :: (getPdfBookmarks doc).1.map Bookmark.pageNum)
    ∧ (∀ (st : ScanSt) (t : List Char) (q : Nat),
        ¬(chapterStrip (normTitle t)).isSome = true →
        ¬(bareIntMatch (normTitle t) = true ∧ '.' ∉ firstPart (normTitle t)) →
        sectionMatch (normTitle t) = true →
        processEntry st t (some q)
          = ScanSt.mk (st.bookmarks ++ [sectionBookmark (normTitle t) q st.bookmarks.length])
              st.foundChapterTitle st.errored)
    ∧ (∀ (t : List Char) (q n : Nat), (sectionBookmark t q n).pageNum = q + 1) := by
  refine ⟨docDirectives_pages, ?_, ?_⟩
  · intro st t q h1 h2 h3
    exact processEntry_section_some st t q h1 h2 h3
  · intro t q n
    rfl

/-- Witness for C2_local_pages: the directives of the second document
carry pages 1 and 2 whatever precedes it, and a section entry resolved to
destination 1 is emitted at local page 2. -/
theorem C2_local_pages_witness :
    (docDirectives 2 chSectionPage2).map TocDirective.page = [1, 2]
      ∧ processEntry initSt ("1.1 Intro".toList) (some 1)
          = ScanSt.mk [Bookmark.mk 2 "section" 1 ("Intro".toList) ("label0".toList)] none false := by
  constructor
  · have h := C2_local_pages.1 2 ("Two".toList)
      (PdfDoc.mk true (forestOf [OutlineItem.entry ("1.1 Intro".toList) (some 1)])
        [some ("hello".toList)])
    rw [show chSectionPage2 = ChapterRec.mk ("Two".toList)
      (some (PdfDoc.mk true (forestOf [OutlineItem.entry ("1.1 Intro".toList) (some 1)])
        [some ("hello".toList)])) from rfl, h]
    decide
  · have h := C2_local_pages.2.1 initSt ("1.1 Intro".toList) 1 (by decide) (by decide) (by decide)
    rw [h]
    decide

/-! ## Claim C3 -/

/-- Claim C3, counterexample. When the page resolution of a later outline
entry raises, the already collected section bookmark and chapter title
ARE returned: the result is not the empty pair the claim requires. -/
theorem C3_empty_result_counterexample :
    getPdfBookmarks docPartialError
        = ([Bookmark.mk 1 "section" 1 ("A".toList) ("label0".toList)], some ("T".toList))
      ∧ ¬ getPdfBookmarks docPartialError = (([] : List Bookmark), (none : Option (List Char))) := by
  decide

/-- Claim C3, amended. Any error while reading a Document is caught and
is never fatal, but the result is NOT always the empty pair: a failure of
PdfReader itself yields (no bookmarks, no title); an exception inside the
outline walk aborts everything after the raise point (the walk is the
identity once the error flag is set) and the function returns exactly the
bookmarks and chapter title accumulated before the error. -/
theorem C3_partial_results :
    (∀ (outl : OutlineForest) (pages : List (Option (List Char))),
      getPdfBookmarks (PdfDoc.mk false outl pages) = ([], none))
    ∧ (∀ (st : ScanSt) (l : OutlineForest), st.errored = true → walkForest st l = st)
    ∧ (∀ doc : PdfDoc, doc.readerOk = true →
        (walkForest initSt doc.outline).errored = true →
        getPdfBookmarks doc
          = ((walkForest initSt doc.outline).bookmarks,
              (walkForest initSt doc.outline).foundChapterTitle)) := by
  refine ⟨?_, walkForest_of_errored, getPdfBookmarks_of_errored⟩
  intro outl pages
  exact getPdfBookmarks_noReader (PdfDoc.mk false outl pages) rfl

/-- Witness for C3_partial_results at the erroring document. -/
theorem C3_partial_results_witness :
    getPdfBookmarks docPartialError
        = ((walkForest initSt docPartialError.outline).bookmarks,
            (walkForest initSt docPartialError.outline).foundChapterTitle)
      ∧ (walkForest initSt docPartialError.outline).errored = true := by
  refine ⟨C3_partial_results.2.2 docPartialError rfl (by decide), by decide⟩

/-! ## Claim C4 -/

/-- Claim C4, counterexample. A Document whose conversion produced no
artifact contributes NO directive at all, in particular no chapter-level
directive, contradicting the claim's "for every Document in merge order,
exactly one chapter-level directive". -/
theorem C4_missing_artifact_counterexample :
    createMasterLatex [ChapterRec.mk ("Doc A".toList) none] false = []
      ∧ (createMasterLatex [ChapterRec.mk ("Doc A".toList) none] false).countP
          (fun d => d.level == "chapter") = 0 := by
  decide

/-- Claim C4, amended. For every Document WITH a page-bearing artifact
the assembler emits exactly one chapter-level directive (level chapter,
depth 0, local page 1), whose title is the recovered ChapterTitle when
one is present and truthy and otherwise the Document's formatted display
name, and it precedes all of that Document's section/subsection
directives; a Document without an artifact is skipped entirely. -/
theorem C4_artifact_chapter_directive :
    (∀ (i : Nat) (nm : List Char), docDirectives i (ChapterRec.mk nm none) = [])
    ∧ (∀ (i : Nat) (nm : List Char) (doc : PdfDoc),
        docDirectives i (ChapterRec.mk nm (some doc))
          = TocDirective.mk 1 "chapter" 0 (chooseTitle (getPdfBookmarks doc).2 nm) (chapLabel i)
              :: (getPdfBookmarks doc).1.map bookmarkDirective)
    ∧ (∀ (i : Nat) (nm : List Char) (doc : PdfDoc),
        (docDirectives i (ChapterRec.mk nm (some doc))).countP
          (fun d => d.level == "chapter") = 1)
    ∧ (∀ (ft : Option (List Char)) (nm : List Char),
        chooseTitle ft nm = match ft with
          | some tl => if tl.isEmpty then nm else tl
          | none => nm) :=
  ⟨docDirectives_none, docDirectives_some, docDirectives_chapter_count, fun _ _ => rfl⟩

/-! ## Claim C5 -/

/-- Claim C5 (confirmed on clean runs). The counter global_page starts at
1; page i (0-indexed) of the current Document is numbered
global_page + i; after a fully readable Document with P pages the
counter advances by exactly P, so bases of successive Documents are
contiguous and non-overlapping; the final counter is 1 plus the total
page count. -/
theorem C5_page_offset_tracker (ks : List (List Char)) (docs : List (List (List Char))) :
    baseAfter ks docs 0 = 1
    ∧ (∀ g i : Nat, currentPageNum g i = g + i)
    ∧ (∀ d : Nat, d < docs.length →
        baseAfter ks docs (d + 1) = baseAfter ks docs d + (docs.getD d []).length)
    ∧ (extractKeywordsRun ks (cleanChapters docs)).globalPage = 1 + totalPages docs := by
  refine ⟨?_, fun g i => rfl, ?_, ?_⟩
  · rw [baseAfter_eq]
    rfl
  · intro d hd
    rw [baseAfter_eq, baseAfter_eq, totalPages_take_succ docs d hd]
    omega
  · rw [extractKeywordsRun_clean]

/-- Witness for C5_page_offset_tracker at page counts 10, 5, 7: the
third Document's base is 16 (so its first page, local page 1 in 1-indexed
terms, is numbered currentPageNum 16 0 = 16), and the run ends at 16 + 7. -/
theorem C5_page_offset_tracker_witness :
    baseAfter [("x".toList)] docsTenFiveSeven 2 = 16
      ∧ baseAfter [("x".toList)] docsTenFiveSeven 3
          = baseAfter [("x".toList)] docsTenFiveSeven 2 + 7
      ∧ currentPageNum 16 0 = 16 := by
  refine ⟨by decide, ?_, ?_⟩
  · have h := (C5_page_offset_tracker [("x".toList)] docsTenFiveSeven).2.2.1 2 (by decide)
    simpa using h
  · have h := (C5_page_offset_tracker [("x".toList)] docsTenFiveSeven).2.1 16 0
    simpa using h

/-! ## Claim C6 -/

/-- Claim C6, counterexample. Keyword x occurs on pages 1 and 3 of a
three-page Document whose second page fails text extraction: the claim
requires the remaining page still to be scanned (value 1 and 3) and the
counter to advance by the full page count (to 4), but the per-chapter
except leaves the value at 1 only and the counter at 1. -/
theorem C6_page_failure_counterexample :
    extractKeywords [("x".toList)] [chMidPageFails] = [(("x".toList), [1])]
      ∧ (extractKeywordsRun [("x".toList)] [chMidPageFails]).globalPage = 1
      ∧ ¬ (extractKeywordsRun [("x".toList)] [chMidPageFails]).globalPage = 1 + 3
      ∧ ¬ extractKeywords [("x".toList)] [chMidPageFails] = [(("x".toList), [1, 3])] := by
  decide

/-- Claim C6, amended. A page whose text extraction fails aborts the
whole per-chapter try block: the pages before it contribute their
matches, the remaining pages of that Document are never scanned, and the
Document does not advance global_page at all; the run itself continues
with the next Document (indexChapter is total). -/
theorem C6_document_abort (st : IndexSt) (nm : List Char) (outl : OutlineForest)
    (ts : List (List Char)) (rest : List (Option (List Char))) :
    indexChapter st (ChapterRec.mk nm (some (PdfDoc.mk true outl (ts.map some ++ none :: rest))))
      = IndexSt.mk (scanPagesAux st.kmap st.globalPage 0 (ts.map some)).1 st.globalPage :=
  indexChapter_abort st nm outl ts rest

/-! ## Claim C7 -/

/-- Claim C7, counterexample. Two documents with one section bookmark
each both label it label0 (the counter len(bookmarks) restarts for every
document), so the emitted labels of one run are not pairwise distinct. -/
theorem C7_duplicate_label_counterexample :
    createMasterLatex [chOneSectionA, chOneSectionB] false
        = [TocDirective.mk 1 "chapter" 0 ("Doc1".toList) ("chap1".toList),
           TocDirective.mk 1 "section" 1 ("A".toList) ("label0".toList),
           TocDirective.mk 1 "chapter" 0 ("Doc2".toList) ("chap2".toList),
           TocDirective.mk 1 "section" 1 ("B".toList) ("label0".toList)]
      ∧ ¬ ((createMasterLatex [chOneSectionA, chOneSectionB] false).map
            TocDirective.label).Nodup := by
  decide

/-- Claim C7, amended. Labels are unique only within one Document's
directive block (chapI followed by label0, label1, ...); chapter labels
are distinct across the run because the enumeration index differs, but
the section labels are purely positional and therefore coincide between
any two Documents at equal bookmark positions. -/
theorem C7_label_uniqueness :
    (∀ (i : Nat) (nm : List Char) (doc : PdfDoc),
      ((docDirectives i (ChapterRec.mk nm (some doc))).map TocDirective.label).Nodup)
    ∧ (∀ i j : Nat, i ≠ j → chapLabel i ≠ chapLabel j)
    ∧ (∀ doc : PdfDoc,
        (getPdfBookmarks doc).1.map Bookmark.label
          = (List.range (getPdfBookmarks doc).1.length).map labelChars) := by
  refine ⟨docDirectives_labels_nodup, ?_, getPdfBookmarks_labels⟩
  intro i j hij h
  exact hij (chapLabel_injective h)

/-- Witness for C7_label_uniqueness: block of the first one-section
document has pairwise distinct labels, and chap1 differs from chap2. -/
theorem C7_label_uniqueness_witness :
    ((docDirectives 1 (ChapterRec.mk ("Doc1".toList)
        (some (PdfDoc.mk true (forestOf [OutlineItem.entry ("1.1 A".toList) (some 0)]) [])))).map
          TocDirective.label).Nodup
      ∧ chapLabel 1 ≠ chapLabel 2 :=
  ⟨C7_label_uniqueness.1 1 ("Doc1".toList)
      (PdfDoc.mk true (forestOf [OutlineItem.entry ("1.1 A".toList) (some 0)]) []),
    C7_label_uniqueness.2.1 1 2 (by decide)⟩

/-! ## Claim C8 -/

/-- Claim C8, counterexample. The title with a tab after the numeric
token, 1.2 then tab then 3.4 x, matches the section pattern with numeric
token 1.2 (one dot, so the claim requires depth 1, section), but the
code counts dots in the first space-delimited word 1.2 tab 3.4 and emits
depth 2, subsection. -/
theorem C8_tab_counterexample :
    getPdfBookmarks docTabTitle
        = ([Bookmark.mk 1 "subsection" 2 ("3.4 x".toList) ("label0".toList)], none)
      ∧ ¬ getPdfBookmarks docTabTitle
          = ([Bookmark.mk 1 "section" 1 ("3.4 x".toList) ("label0".toList)], none) := by
  decide

/-- Claim C8, amended. A title surviving rules 1 and 2 and matching the
section pattern is emitted as exactly one OutlineNode whose clean title
strips the numeric token and following separator; its depth counts the
dots of the first SPACE-delimited word (trailing dots removed): one dot
gives depth 1, section, anything else depth 2, subsection. This agrees
with counting dots of the numeric token whenever the token is followed by
a space or end of title, as in the spec examples 2.3 Data Pipeline and
2.3.1 Buffering, but not when other whitespace such as a tab follows. -/
theorem C8_depth_from_space_word :
    (∀ (st : ScanSt) (t : List Char) (q : Nat),
      ¬(chapterStrip (normTitle t)).isSome = true →
      ¬(bareIntMatch (normTitle t) = true ∧ '.' ∉ firstPart (normTitle t)) →
      sectionMatch (normTitle t) = true →
      processEntry st t (some q)
        = ScanSt.mk (st.bookmarks ++ [sectionBookmark (normTitle t) q st.bookmarks.length])
            st.foundChapterTitle st.errored)
    ∧ walkForest initSt (forestOf [OutlineItem.entry ("2.3 Data Pipeline".toList) (some 3)])
        = ScanSt.mk [Bookmark.mk 4 "section" 1 ("Data Pipeline".toList) ("label0".toList)]
            none false
    ∧ walkForest initSt (forestOf [OutlineItem.entry ("2.3.1 Buffering".toList) (some 3)])
        = ScanSt.mk [Bookmark.mk 4 "subsection" 2 ("Buffering".toList) ("label0".toList)]
            none false := by
  refine ⟨?_, by decide, by decide⟩
  intro st t q h1 h2 h3
  exact processEntry_section_some st t q h1 h2 h3

/-- Witness for C8_depth_from_space_word at the tab title: the general
emission rule applied there yields the depth-2 subsection bookmark. -/
theorem C8_depth_from_space_word_witness :
    processEntry initSt ("1.2\t3.4 x".toList) (some 0)
      = ScanSt.mk [Bookmark.mk 1 "subsection" 2 ("3.4 x".toList) ("label0".toList)] none false := by
  have h := C8_depth_from_space_word.1 initSt ("1.2\t3.4 x".toList) 0
    (by decide) (by decide) (by decide)
  rw [h]
  decide

/-! ## Claim C9 -/

/-- Claim C9 (confirmed on clean runs). The final mapping of
extract_keywords holds exactly the distinct keywords with at least one
matching page, in first-occurrence order; each value is matchPages, the
strictly ascending (hence duplicate-free) list of exactly those global
page numbers whose lowercased page text contains the lowercased keyword. -/
theorem C9_keyword_index (ks : List (List Char)) (docs : List (List (List Char))) :
    extractKeywords ks (cleanChapters docs)
        = (dedupKeys ks).filterMap
            (fun k => if (matchPages k docs).isEmpty then none
                      else some (k, matchPages k docs))
    ∧ (∀ (k : List Char) (l : List Nat),
        (k, l) ∈ extractKeywords ks (cleanChapters docs)
          ↔ k ∈ dedupKeys ks ∧ matchPages k docs ≠ [] ∧ l = matchPages k docs)
    ∧ (∀ k : List Char, (matchPages k docs).Pairwise (· < ·))
    ∧ (∀ (k : List Char) (p : Nat),
        p ∈ matchPages k docs
          ↔ ∃ j, j < docs.flatten.length ∧ p = 1 + j
              ∧ containsSub (lowerStr (docs.flatten.getD j [])) (lowerStr k) = true) :=
  ⟨extractKeywords_clean ks docs,
    fun k l => extractKeywords_mem ks docs k l,
    fun k => matchPages_pairwise k docs,
    fun k p => matchPages_mem k docs p⟩

/-! ## Claim C10 -/

/-- Claim C10 (confirmed). In the first-page-text fallback, when a line
among the first five (none earlier matching) matches the chapter pattern
but stripping the prefix leaves the empty string, the ChapterTitle is set
to that whitespace-trimmed line itself rather than left absent, and
scanning stops there (later lines are irrelevant); with an empty outline
the function's recovered title is exactly the fallback's result on the
split first-page text. -/
theorem C10_fallback_empty_strip :
    (∀ (pre : List (List Char)) (line : List Char) (rest : List (List Char)),
      pre.length < 5 →
      (∀ l ∈ pre, chapterStrip (pyStrip l) = none) →
      (chapterStrip (pyStrip line)).isSome = true →
      pyStrip ((chapterStrip (pyStrip line)).getD []) = [] →
      fallbackScan (pre ++ line :: rest) = some (pyStrip line))
    ∧ (∀ (txt : List Char) (ps : List (Option (List Char))),
        (getPdfBookmarks (PdfDoc.mk true OutlineForest.nil (some txt :: ps))).2
          = fallbackScan (splitLines txt)) := by
  refine ⟨?_, getPdfBookmarks_snd_fallback⟩
  intro pre line rest h5 hpre hsome hempty
  rw [fallbackScan, take_five_split pre line rest h5,
    scanLinesGo_found pre line (rest.take (4 - pre.length)) hpre hsome, hempty]
  simp

/-- Witness for C10_fallback_empty_strip at a page whose first line is
exactly Chapter 2: the fallback returns that line itself. -/
theorem C10_fallback_empty_strip_witness :
    fallbackScan [("Chapter 2".toList), ("hello".toList)] = some (pyStrip ("Chapter 2".toList))
      ∧ (getPdfBookmarks (PdfDoc.mk true OutlineForest.nil
            [some ("Chapter 2\nhello".toList)])).2
          = fallbackScan (splitLines ("Chapter 2\nhello".toList))
      ∧ pyStrip ("Chapter 2".toList) = ("Chapter 2".toList) :=
  ⟨C10_fallback_empty_strip.1 [] ("Chapter 2".toList) [("hello".toList)] (by decide)
      (fun l hl => absurd hl (List.not_mem_nil l)) (by decide) (by decide),
    C10_fallback_empty_strip.2 ("Chapter 2\nhello".toList) [],
    by decide⟩

end Merger
